import Mathlib

/-!
Verification of the filechart data pipeline (src/extension.js).

The JavaScript source is shallowly embedded below.  JavaScript numbers are
modelled as exact rationals (`ℚ`); IEEE-754 rounding is abstracted away, which
is faithful for every concrete value the claims exercise.  A data cell of a
series can be a number, `null`, `NaN`, or `undefined`; these are the four
constructors of `JsVal`.  UI side effects (warning popups, quick-pick dialogs)
are not modelled: user responses enter the model as explicit arguments.
-/

set_option autoImplicit false

namespace FileChart

/-- The JavaScript values that can appear in a series' `data` array:
`null`, `NaN`, `undefined`, or a (finite) number. -/
inductive JsVal where
  | null : JsVal
  | nan : JsVal
  | undef : JsVal
  | num : ℚ → JsVal
deriving DecidableEq, Repr

/-- `ToNumber` coercion used by JavaScript arithmetic: `null ↦ 0`,
`undefined ↦ NaN`, `NaN ↦ NaN`; `none` encodes NaN. -/
def jsToNum : JsVal → Option ℚ
  | JsVal.null => some 0
  | JsVal.nan => none
  | JsVal.undef => none
  | JsVal.num q => some q

/-- JavaScript `+` on two values (numeric case; no strings reach it here). -/
def jsAdd (a b : JsVal) : JsVal :=
  match jsToNum a, jsToNum b with
  | some x, some y => JsVal.num (x + y)
  | _, _ => JsVal.nan

/-- JavaScript `*` on two values. -/
def jsMul (a b : JsVal) : JsVal :=
  match jsToNum a, jsToNum b with
  | some x, some y => JsVal.num (x * y)
  | _, _ => JsVal.nan

/-- JavaScript `/` on two values.  `0/0 = NaN` is modelled exactly; a nonzero
numerator over zero would be `±Infinity` in JavaScript, which is not
representable here and is mapped to NaN — no use in this development divides a
nonzero number by zero (periods are positive, and a zero divisor only arises
as `0/0` in the empty-average case). -/
def jsDiv (a b : JsVal) : JsVal :=
  match jsToNum a, jsToNum b with
  | some x, some y => if y = 0 then JsVal.nan else JsVal.num (x / y)
  | _, _ => JsVal.nan

/-- JavaScript `value || 0`: falsy values (`null`, `NaN`, `undefined`, `0`)
give `0`, any other number gives itself. -/
def jsOrZero : JsVal → ℚ
  | JsVal.num q => q
  | _ => 0

/-- `ToNumber` applied to a whole array, as happens when the source calls
`Math.max(arr)` with the array as a single argument: the array is converted to
a string (elements joined by commas; `null`/`undefined` join as the empty
string, a number as its decimal form) and that string is parsed back.  A
two-or-more element array joins with a comma and therefore parses as NaN; a
singleton number round-trips; an empty array gives `"" ↦ 0`. -/
def arrayJoinToNumber : List JsVal → JsVal
  | [] => JsVal.num 0
  | [JsVal.num q] => JsVal.num q
  | [JsVal.null] => JsVal.num 0
  | [JsVal.undef] => JsVal.num 0
  | [JsVal.nan] => JsVal.nan
  | _ => JsVal.nan

/-- `Math.max` exactly as the source invokes it: with the filtered data array
as its single argument.  `Math.max(x)` coerces `x` with `ToNumber` and returns
it (NaN if the coercion fails). -/
def mathMaxArr (l : List JsVal) : JsVal := arrayJoinToNumber l

/-- `Math.min` exactly as the source invokes it: with the filtered data array
as its single argument. -/
def mathMinArr (l : List JsVal) : JsVal := arrayJoinToNumber l

/-- The Average callback from the source:
`arr => arr.reduce((a, b) => a + b, 0) / arr.length`. -/
def averageFn (l : List JsVal) : JsVal :=
  jsDiv (l.foldl jsAdd (JsVal.num 0)) (JsVal.num l.length)

/-- One chart series: `{ name, data, dashStyle?, marker? }`.  Base series carry
no style fields (`none`); derived series set them. -/
structure Series where
  name : String
  data : List JsVal
  dashStyle : Option String
  markerEnabled : Option Bool
deriving DecidableEq, Repr

/-- The filter predicate `v => v !== null` (strict inequality: `NaN` and
`undefined` are not `null`). -/
def isNotNull : JsVal → Bool
  | JsVal.null => false
  | _ => true

/-- `createStatSeries` from the source: filter out `null` data points, apply
the statistic callback to the filtered array, and repeat the resulting scalar
at every index of the base series. -/
def createStatSeries (originalSeries : Series) (statName : String)
    (statFunction : List JsVal → JsVal) : Series :=
  let statValue := statFunction (originalSeries.data.filter isNotNull)
  { name := originalSeries.name ++ " (" ++ statName ++ ")"
    data := originalSeries.data.map (fun _ => statValue)
    dashStyle := some "ShortDash"
    markerEnabled := some false }

/-- The data array built by `createSMA`: `null` while the window is short
(`i < period - 1`), otherwise the window `data.slice(i-period+1, i+1)` summed
with `value || 0` and divided by the period. -/
def createSMAdata (data : List JsVal) (period : ℕ) : List JsVal :=
  (List.range data.length).map (fun i =>
    if i < period - 1 then JsVal.null
    else
      let slice := (data.drop (i + 1 - period)).take period
      jsDiv (JsVal.num (slice.foldl (fun sum v => sum + jsOrZero v) 0))
        (JsVal.num period))

/-- `createSMA` from the source. -/
def createSMA (originalSeries : Series) (period : ℕ) : Series :=
  { name := originalSeries.name ++ " (SMA " ++ toString period ++ ")"
    data := createSMAdata originalSeries.data period
    dashStyle := some "ShortDash"
    markerEnabled := some false }

/-- One step of the EMA loop body: when the current value is not `null` the
accumulator becomes `value * k + ema * (1 - k)` (JavaScript arithmetic, so a
`null` accumulator coerces to 0), otherwise it is carried forward. -/
def emaStep (k : ℚ) (ema v : JsVal) : JsVal :=
  match v with
  | JsVal.null => ema
  | _ => jsAdd (jsMul v (JsVal.num k)) (jsMul ema (JsVal.num (1 - k)))

/-- The `for` loop of `createEMA`: one pushed value per remaining input
element, each the updated accumulator. -/
def emaLoop (k : ℚ) (ema : JsVal) : List JsVal → List JsVal
  | [] => []
  | v :: rest =>
    let ema2 := emaStep k ema v
    ema2 :: emaLoop k ema2 rest

/-- The data array built by `createEMA`: the seed `data[0]` (JavaScript yields
`undefined` on an empty array) is pushed first, then the loop runs from index
1. -/
def createEMAdata (data : List JsVal) (k : ℚ) : List JsVal :=
  let ema0 := data.headD JsVal.undef
  ema0 :: emaLoop k ema0 (data.drop 1)

/-- `createEMA` from the source, with `k = 2 / (period + 1)`. -/
def createEMA (originalSeries : Series) (period : ℕ) : Series :=
  let k : ℚ := 2 / ((period : ℚ) + 1)
  { name := originalSeries.name ++ " (EMA " ++ toString period ++ ")"
    data := createEMAdata originalSeries.data k
    dashStyle := some "ShortDot"
    markerEnabled := some false }

/-- Numeric value of a digit string (most significant first). -/
def digitsToNat (ds : List Char) : ℕ :=
  ds.foldl (fun acc c => acc * 10 + (c.toNat - 48)) 0

/-- The exponent suffix of a float literal, the `e`/`E` already consumed: an
optional sign and then digits.  A malformed exponent (no digits) contributes
nothing, matching `parseFloat`'s longest-valid-prefix rule. -/
def expPart : List Char → ℤ
  | '-' :: ds =>
    if (ds.takeWhile Char.isDigit).isEmpty then 0
    else -(digitsToNat (ds.takeWhile Char.isDigit) : ℤ)
  | '+' :: ds => (digitsToNat (ds.takeWhile Char.isDigit) : ℤ)
  | ds => (digitsToNat (ds.takeWhile Char.isDigit) : ℤ)

/-- Model of the JavaScript `parseFloat` builtin (not repository code): skip
leading whitespace, read an optional sign, integer digits, an optional
fraction, and an optional well-formed exponent, ignore any trailing garbage,
and return NaN (`none`) when no digits were read.  Non-finite results are not
modelled: the literal `Infinity`, which JavaScript would accept, is mapped to
`none`; no claim exercises it. -/
def parseFloatJs (s : String) : Option ℚ :=
  let cs0 := s.data.dropWhile Char.isWhitespace
  let sign : ℚ := match cs0 with
    | '-' :: _ => -1
    | _ => 1
  let cs1 := match cs0 with
    | '-' :: rest => rest
    | '+' :: rest => rest
    | _ => cs0
  let intDigits := cs1.takeWhile Char.isDigit
  let cs2 := cs1.dropWhile Char.isDigit
  let fracDigits := match cs2 with
    | '.' :: rest => rest.takeWhile Char.isDigit
    | _ => []
  let cs3 := match cs2 with
    | '.' :: rest => rest.dropWhile Char.isDigit
    | _ => cs2
  if intDigits.isEmpty && fracDigits.isEmpty then none
  else
    let expVal : ℤ := match cs3 with
      | 'e' :: rest => expPart rest
      | 'E' :: rest => expPart rest
      | _ => 0
    some (sign * ((digitsToNat intDigits : ℚ)
      + (digitsToNat fracDigits : ℚ) / 10 ^ fracDigits.length) * 10 ^ expVal)

/-- One parsed data cell, from `processData`'s
`const value = parseFloat(row[colIndex]); return isNaN(value) ? null : value`:
an out-of-range access yields `undefined`, `parseFloat(undefined)` is NaN, and
any NaN becomes `null`. -/
def parsePoint (field : Option String) : JsVal :=
  match field with
  | none => JsVal.null
  | some s =>
    match parseFloatJs s with
    | none => JsVal.null
    | some q => JsVal.num q

/-- One base series, as built by `processData`: named by the header at the
column index (`undefined` interpolates to the string "undefined" when out of
range), with one parsed point per row. -/
def mkBaseSeries (headers : List String) (data : List (List String))
    (colIndex : ℕ) : Series :=
  { name := (headers[colIndex]?).getD "undefined"
    data := data.map (fun row => parsePoint row[colIndex]?)
    dashStyle := none
    markerEnabled := none }

/-- The five statistic labels `selectStatistics` can return. -/
inductive Stat where
  | max : Stat
  | min : Stat
  | average : Stat
  | sma : Stat
  | ema : Stat
deriving DecidableEq, Repr

/-- The periods gathered by `getMovingAveragePeriods`. -/
structure Periods where
  sma : ℕ
  ema : ℕ
deriving DecidableEq, Repr

/-- The `switch (stat)` dispatch inside `processData`'s statistics loop. -/
def applyStat (periods : Periods) (s : Series) : Stat → Series
  | Stat.max => createStatSeries s "Max" mathMaxArr
  | Stat.min => createStatSeries s "Min" mathMinArr
  | Stat.average => createStatSeries s "Avg" averageFn
  | Stat.sma => createSMA s periods.sma
  | Stat.ema => createEMA s periods.ema

/-- Placeholder for an out-of-range list read; never actually read (see
`overlayLoop`). -/
def dummySeries : Series :=
  { name := "", data := [], dashStyle := none, markerEnabled := none }

/-- The `series.forEach(s => statistics.forEach(stat => series.push(…)))`
loop of `processData`.  ECMAScript `forEach` fixes the range of visited
indices to the array's length before the first callback runs, so exactly the
initial indices are visited even though every visit appends to the array; `n`
counts the visits remaining and `k` is the next index.  The element read at
index `k` is read from the current list, but the appends never move it.  The
`dummySeries` default is never read because `k + n` never exceeds the list
length at any call site. -/
def overlayLoop (statistics : List Stat) (periods : Periods) :
    ℕ → ℕ → List Series → List Series
  | 0, _, series => series
  | n + 1, k, series =>
    overlayLoop statistics periods n (k + 1)
      (series ++ statistics.map (applyStat periods (series[k]?.getD dummySeries)))

/-- The `{ series, categories }` record returned by `processData`. -/
structure ProcessResult where
  series : List Series
  categories : List (Option String)
deriving DecidableEq, Repr

/-- `processData` from the source: categories are `row[0]` of every row
(`undefined`, i.e. `none`, for an empty row), one base series per selected
column after the first, then the statistics loop appends the overlays. -/
def processData (headers : List String) (data : List (List String))
    (selectedColumns : List ℕ) (statistics : List Stat) (periods : Periods) :
    ProcessResult :=
  let categories := data.map (fun row => row[0]?)
  let series := (selectedColumns.drop 1).map (mkBaseSeries headers data)
  { series := overlayLoop statistics periods series.length 0 series
    categories := categories }

/-- `parseFile` from the source: keep the lines that are nonblank after
trimming, bail out on none, sniff the separator from the first line (the
source also raises a non-fatal warning popup when falling back to tab, a UI
effect outside this model), split-and-trim the header line, split the data
lines untrimmed. -/
def parseFile (content : String) : List String × List (List String) :=
  let lines := (content.splitOn "\n").filter (fun line => line.trim ≠ "")
  if lines.isEmpty then ([], [])
  else
    let firstLine := lines.headD ""
    let separator : String :=
      if firstLine.contains '\t' then "\t"
      else if firstLine.contains ';' then ";"
      else if firstLine.contains '|' then "|"
      else "\t"
    let headers := ((lines.headD "").splitOn separator).map String.trim
    let data := (lines.drop 1).map (fun line => line.splitOn separator)
    (headers, data)

/-- The delimiter rule exactly as the claim states it, for comparison with
`parseFile`: tab if the first remaining line contains a tab, else `;` if it
contains `;`, else `|` if it contains `|`, else tab as a fallback. -/
def chooseDelimiterSpec (firstLine : String) : String :=
  if firstLine.contains '\t' then "\t"
  else if firstLine.contains ';' then ";"
  else if firstLine.contains '|' then "|"
  else "\t"

/-- The parser exactly as the claim describes it: drop blank lines; empty
headers and rows when nothing remains; otherwise the header row is the first
remaining line split on the sniffed delimiter with fields trimmed, and the
data rows are the remaining lines split with fields not trimmed. -/
def parseFileSpec (content : String) : List String × List (List String) :=
  match (content.splitOn "\n").filter (fun line => line.trim ≠ "") with
  | [] => ([], [])
  | first :: restLines =>
    let d := chooseDelimiterSpec first
    ((first.splitOn d).map String.trim, restLines.map (fun line => line.splitOn d))

/-- JavaScript `Array.prototype.indexOf` on an array of strings: the index of
the first occurrence, or `-1` when absent. -/
def jsIndexOf (l : List String) (s : String) : ℤ :=
  match l with
  | [] => -1
  | a :: rest =>
    if a = s then 0
    else
      let r := jsIndexOf rest s
      if r = -1 then -1 else r + 1

/-- What `selectColumns` leaves behind: the selection handed to the caller and
the per-document stored selection after the call. -/
structure SelectResult where
  selection : Option (List ℤ)
  stored : Option (List ℤ)
deriving DecidableEq, Repr

/-- The `else if (lastUsed) … else null` tail of `selectColumns`: an empty
array is truthy in JavaScript, so any stored list (even `[]`) is used. -/
def selectFallback (lastUsed : Option (List ℤ)) : SelectResult :=
  match lastUsed with
  | some lu => { selection := some (0 :: lu), stored := lastUsed }
  | none => { selection := none, stored := lastUsed }

/-- `selectColumns` from the source, with the quick-pick abstracted:
`lastUsed` is the stored per-document selection (if any) and `selectedItems`
the labels of the items the user confirmed (`none` = cancelled).  A confirmed
non-empty pick resolves each label with `headers.indexOf` and stores the
resolved indices; otherwise the stored selection, when present, is returned
with `0` prepended and the store is untouched. -/
def selectColumns (headers : List String) (lastUsed : Option (List ℤ))
    (selectedItems : Option (List String)) : SelectResult :=
  match selectedItems with
  | some items =>
    if items.length > 0 then
      let selectedIndexes := items.map (fun label => jsIndexOf headers label)
      { selection := some (0 :: selectedIndexes), stored := some selectedIndexes }
    else selectFallback lastUsed
  | none => selectFallback lastUsed

/-- The accumulator of the EMA loop after consuming a list of values. -/
def emaAcc (k : ℚ) (ema : JsVal) (l : List JsVal) : JsVal :=
  l.foldl (emaStep k) ema

section Lemmas

lemma foldl_add_jsOrZero (l : List JsVal) (a : ℚ) :
    l.foldl (fun sum v => sum + jsOrZero v) a = a + (l.map jsOrZero).sum := by
  induction l generalizing a with
  | nil => simp
  | cons v rest ih => simp [ih (a + jsOrZero v), add_assoc]

lemma emaStep_null (k : ℚ) (e : JsVal) : emaStep k e JsVal.null = e := rfl

lemma emaStep_num (k q w : ℚ) :
    emaStep k (JsVal.num q) (JsVal.num w) = JsVal.num (w * k + q * (1 - k)) := by
  simp [emaStep, jsAdd, jsMul, jsToNum]

lemma emaStep_nullAcc_num (k w : ℚ) :
    emaStep k JsVal.null (JsVal.num w) = JsVal.num (w * k) := by
  simp [emaStep, jsAdd, jsMul, jsToNum]

lemma emaLoop_length (k : ℚ) : ∀ (l : List JsVal) (ema : JsVal),
    (emaLoop k ema l).length = l.length
  | [], _ => rfl
  | v :: rest, ema => by simp [emaLoop, emaLoop_length k rest]

lemma emaLoop_getElem (k : ℚ) : ∀ (l : List JsVal) (ema : JsVal) (i : ℕ),
    i < l.length → (emaLoop k ema l)[i]? = some (emaAcc k ema (l.take (i + 1)))
  | [], _, i, h => absurd h (by simp)
  | v :: rest, ema, 0, _ => by simp [emaLoop, emaAcc]
  | v :: rest, ema, i + 1, h => by
    have ih := emaLoop_getElem k rest (emaStep k ema v) i (by simpa using h)
    simpa [emaLoop, emaAcc] using ih

lemma createEMAdata_getElem (k : ℚ) (d0 : JsVal) (tl : List JsVal) (j : ℕ)
    (hj : j ≤ tl.length) :
    (createEMAdata (d0 :: tl) k)[j]? = some (emaAcc k d0 (tl.take j)) := by
  cases j with
  | zero => simp [createEMAdata, emaAcc]
  | succ j =>
    have h := emaLoop_getElem k tl d0 j (by omega)
    simpa [createEMAdata] using h

lemma createEMAdata_length (k : ℚ) (d0 : JsVal) (tl : List JsVal) :
    (createEMAdata (d0 :: tl) k).length = tl.length + 1 := by
  simp [createEMAdata, emaLoop_length]

lemma emaAcc_all_null (k : ℚ) : ∀ (l : List JsVal), (∀ x ∈ l, x = JsVal.null) →
    emaAcc k JsVal.null l = JsVal.null
  | [], _ => rfl
  | v :: rest, h => by
    have hv : v = JsVal.null := h v (by simp)
    subst hv
    simpa [emaAcc, emaStep] using emaAcc_all_null k rest (fun x hx => h x (by simp [hx]))

lemma emaAcc_num_of_wf (k : ℚ) : ∀ (l : List JsVal) (q : ℚ),
    (∀ x ∈ l, x = JsVal.null ∨ ∃ r, x = JsVal.num r) →
    ∃ r, emaAcc k (JsVal.num q) l = JsVal.num r
  | [], q, _ => ⟨q, rfl⟩
  | v :: rest, q, h => by
    rcases h v (by simp) with hv | ⟨w, hv⟩
    · subst hv
      simpa [emaAcc, emaStep] using
        emaAcc_num_of_wf k rest q (fun x hx => h x (by simp [hx]))
    · subst hv
      have ih := emaAcc_num_of_wf k rest (w * k + q * (1 - k))
        (fun x hx => h x (by simp [hx]))
      simpa [emaAcc, emaStep_num] using ih

lemma drop_eq_getD_cons {α : Type} (d : α) : ∀ (l : List α) (k : ℕ), k < l.length →
    l.drop k = (l[k]?.getD d) :: l.drop (k + 1)
  | _ :: _, 0, _ => by simp
  | _ :: rest, k + 1, h => by
    simpa using drop_eq_getD_cons d rest k (by simpa using h)
  | [], k, h => absurd h (by simp)

lemma flatMap_stats_length (stats : List Stat) (periods : Periods) :
    ∀ (l : List Series),
      (l.flatMap (fun b => stats.map (applyStat periods b))).length
        = l.length * stats.length
  | [] => by simp
  | b :: rest => by
    simp [List.flatMap_cons, flatMap_stats_length stats periods rest]
    ring

/-- The overlay loop visits exactly the `n` indices `k, …, k+n-1` of the
original list and appends, per visited base series, one derived series per
requested statistic — the appended overlays are never themselves visited. -/
lemma overlayLoop_spec (stats : List Stat) (periods : Periods) :
    ∀ (n k : ℕ) (s : List Series), k + n ≤ s.length →
      overlayLoop stats periods n k s =
        s ++ ((s.drop k).take n).flatMap (fun b => stats.map (applyStat periods b))
  | 0, k, s, _ => by simp [overlayLoop]
  | n + 1, k, s, h => by
    have hk : k < s.length := by omega
    simp only [overlayLoop]
    rw [overlayLoop_spec stats periods n (k + 1) _ (by simp; omega)]
    have hdrop : (s ++ stats.map (applyStat periods (s[k]?.getD dummySeries))).drop (k + 1)
        = s.drop (k + 1) ++ stats.map (applyStat periods (s[k]?.getD dummySeries)) :=
      List.drop_append_of_le_length (by omega)
    rw [hdrop]
    have htake : (s.drop (k + 1)
          ++ stats.map (applyStat periods (s[k]?.getD dummySeries))).take n
        = (s.drop (k + 1)).take n :=
      List.take_append_of_le_length (by simp [List.length_drop]; omega)
    rw [htake]
    have hsplit : (s.drop k).take (n + 1)
        = (s[k]?.getD dummySeries) :: (s.drop (k + 1)).take n := by
      rw [drop_eq_getD_cons dummySeries s k hk]
      rfl
    rw [hsplit, List.flatMap_cons]
    simp

/-- `processData`'s series list is the base series followed by all overlays,
grouped by base series in selection order. -/
lemma processData_series_eq (headers : List String) (data : List (List String))
    (sel : List ℕ) (stats : List Stat) (periods : Periods) :
    (processData headers data sel stats periods).series =
      ((sel.drop 1).map (mkBaseSeries headers data)) ++
      ((sel.drop 1).map (mkBaseSeries headers data)).flatMap
        (fun b => stats.map (applyStat periods b)) := by
  unfold processData
  dsimp only
  rw [overlayLoop_spec stats periods _ 0 _ (by simp)]
  simp
  rw [List.take_of_length_le (by simp)]

/-- Every data point of a base series is `null` or a number: `parsePoint`
never yields `NaN` or `undefined`.  (This justifies the well-formedness
hypotheses placed on base-series data below.) -/
lemma mkBaseSeries_wf (headers : List String) (data : List (List String))
    (colIndex : ℕ) :
    ∀ x ∈ (mkBaseSeries headers data colIndex).data,
      x = JsVal.null ∨ ∃ q, x = JsVal.num q := by
  intro x hx
  simp only [mkBaseSeries, List.mem_map] at hx
  obtain ⟨row, _, hrow⟩ := hx
  subst hrow
  unfold parsePoint
  cases hf : row[colIndex]? with
  | none => exact Or.inl (by simp [hf])
  | some f =>
    cases hq : parseFloatJs f with
    | none => exact Or.inl (by simp [hf, hq])
    | some q => exact Or.inr ⟨q, by simp [hf, hq]⟩

lemma jsIndexOf_nonneg : ∀ (l : List String) (s : String), s ∈ l → 0 ≤ jsIndexOf l s
  | [], s, h => absurd h (by simp)
  | a :: rest, s, h => by
    by_cases hs : a = s
    · simp [jsIndexOf, hs]
    · have hmem : s ∈ rest := by
        rcases List.mem_cons.mp h with h1 | h1
        · exact absurd h1.symm hs
        · exact h1
      have ih := jsIndexOf_nonneg rest s hmem
      simp only [jsIndexOf, if_neg hs]
      split <;> omega

lemma jsIndexOf_inj (l : List String) : ∀ s t, s ∈ l → t ∈ l →
    jsIndexOf l s = jsIndexOf l t → s = t := by
  induction l with
  | nil => intro s t hs _ _; exact absurd hs (by simp)
  | cons a rest ih =>
    intro s t hs ht heq
    by_cases has : a = s <;> by_cases hat : a = t
    · rw [← has, ← hat]
    · exfalso
      have hmt : t ∈ rest := by
        rcases List.mem_cons.mp ht with h1 | h1
        · exact absurd h1.symm hat
        · exact h1
      have h1 := jsIndexOf_nonneg rest t hmt
      simp only [jsIndexOf, if_pos has, if_neg hat] at heq
      split at heq <;> omega
    · exfalso
      have hms : s ∈ rest := by
        rcases List.mem_cons.mp hs with h1 | h1
        · exact absurd h1.symm has
        · exact h1
      have h1 := jsIndexOf_nonneg rest s hms
      simp only [jsIndexOf, if_pos hat, if_neg has] at heq
      split at heq <;> omega
    · have hms : s ∈ rest := by
        rcases List.mem_cons.mp hs with h1 | h1
        · exact absurd h1.symm has
        · exact h1
      have hmt : t ∈ rest := by
        rcases List.mem_cons.mp ht with h1 | h1
        · exact absurd h1.symm hat
        · exact h1
      have h1 := jsIndexOf_nonneg rest s hms
      have h2 := jsIndexOf_nonneg rest t hmt
      simp only [jsIndexOf, if_neg has, if_neg hat] at heq
      have heq2 : jsIndexOf rest s = jsIndexOf rest t := by
        split at heq <;> split at heq <;> omega
      exact ih s t hms hmt heq2

end Lemmas

/-- C1: the Max overlay does NOT equal the maximum over non-absent values: at
the spec's own example base `[1, absent, 3]` the source passes the filtered
array `[1, 3]` to `Math.max` as a single argument, which coerces it via the
string `"1,3"` to NaN, so every Max data point is NaN, not 3 (Min fails the
same way).  The Average part of the claim does hold: `[2, 2, 2]`. -/
theorem c1_stat_overlay_bug :
    (createStatSeries ⟨"s", [JsVal.num 1, JsVal.null, JsVal.num 3], none, none⟩
        "Max" mathMaxArr).data = [JsVal.nan, JsVal.nan, JsVal.nan] ∧
    (createStatSeries ⟨"s", [JsVal.num 1, JsVal.null, JsVal.num 3], none, none⟩
        "Avg" averageFn).data = [JsVal.num 2, JsVal.num 2, JsVal.num 2] ∧
    JsVal.nan ≠ JsVal.num 3 := by
  refine ⟨by decide, ?_, by decide⟩
  norm_num [createStatSeries, averageFn, jsDiv, jsAdd, jsToNum, isNotNull]

/-- C2: the SMA overlay of any base series with positive period `p` is absent
below index `p − 1`; from `p − 1` on it is the sum of the window of the `p`
most recent values ending at the index — absent values contributing 0 and
still counted — divided by `p`. -/
theorem c2_sma_spec (s : Series) (p : ℕ) (hp : 1 ≤ p) :
    (createSMA s p).data.length = s.data.length ∧
    ∀ i, i < s.data.length →
      ((i < p - 1 → (createSMA s p).data[i]? = some JsVal.null) ∧
       (p - 1 ≤ i →
         ((s.data.drop (i + 1 - p)).take p).length = p ∧
         (createSMA s p).data[i]? =
           some (JsVal.num
             ((((s.data.drop (i + 1 - p)).take p).map jsOrZero).sum / (p : ℚ))))) := by
  refine ⟨by simp [createSMA, createSMAdata], ?_⟩
  intro i hi
  have hget : (createSMA s p).data[i]? =
      some (if i < p - 1 then JsVal.null
        else jsDiv
          (JsVal.num (((s.data.drop (i + 1 - p)).take p).foldl
            (fun sum v => sum + jsOrZero v) 0))
          (JsVal.num p)) := by
    simp [createSMA, createSMAdata, List.getElem?_range, hi]
  refine ⟨fun hlt => by rw [hget]; simp [hlt], fun hge => ?_⟩
  have hnlt : ¬ i < p - 1 := by omega
  refine ⟨?_, ?_⟩
  · simp only [List.length_take, List.length_drop]
    omega
  · rw [hget]
    simp only [hnlt, if_false]
    rw [foldl_add_jsOrZero]
    have hp0 : ((p : ℚ)) ≠ 0 := Nat.cast_ne_zero.mpr (by omega)
    simp [jsDiv, jsToNum, hp0]

/-- C2 witness: base `[1,2,3,4,5]` with period 3 gives `[null, null, 2, 3, 4]`. -/
theorem c2_sma_witness :
    (createSMA ⟨"s", [JsVal.num 1, JsVal.num 2, JsVal.num 3, JsVal.num 4, JsVal.num 5],
        none, none⟩ 3).data.length = 5 ∧
    (createSMA ⟨"s", [JsVal.num 1, JsVal.num 2, JsVal.num 3, JsVal.num 4, JsVal.num 5],
        none, none⟩ 3).data
      = [JsVal.null, JsVal.null, JsVal.num 2, JsVal.num 3, JsVal.num 4] := by
  constructor
  · have h := (c2_sma_spec ⟨"s", [JsVal.num 1, JsVal.num 2, JsVal.num 3, JsVal.num 4,
      JsVal.num 5], none, none⟩ 3 (by norm_num)).1
    simpa using h
  · norm_num [createSMA, createSMAdata, jsDiv, jsToNum, jsOrZero, List.range_succ]

/-- C3 counterexample: on the empty base series (reachable from a header-only
file) the EMA overlay does NOT have one value per input index: the seed
`data[0]`, which is `undefined`, is pushed unconditionally, so the output has
one data point while the input has zero. -/
theorem c3_ema_empty_counterexample :
    (createEMA ⟨"s", [], none, none⟩ 3).data.length = 1 ∧
    ((⟨"s", [], none, none⟩ : Series)).data.length = 0 ∧ (1 : ℕ) ≠ 0 := by
  refine ⟨?_, rfl, by decide⟩
  simp [createEMA, createEMAdata, emaLoop]

/-- C3 (amended): for every NONEMPTY base series and positive period `p`, the
EMA overlay with `k = 2/(p+1)` has one value per input index, is seeded with
the first base value, and for `i ≥ 1` satisfies
`ema i = value·k + ema (i−1)·(1−k)` when the base value is a present number
and the previous accumulator is a number, and carries the previous value
forward unchanged when the base value is absent.  (The empty base series is
the only exception the code forces: see the counterexample.) -/
theorem c3_ema_spec (s : Series) (p : ℕ) (hne : s.data ≠ []) (hp : 1 ≤ p) :
    (createEMA s p).data.length = s.data.length ∧
    (createEMA s p).data[0]? = s.data[0]? ∧
    ∀ i, 1 ≤ i → i < s.data.length →
      ((∀ v e, s.data[i]? = some (JsVal.num v) →
          (createEMA s p).data[i - 1]? = some (JsVal.num e) →
          (createEMA s p).data[i]? =
            some (JsVal.num (v * (2 / ((p : ℚ) + 1)) + e * (1 - 2 / ((p : ℚ) + 1))))) ∧
       (s.data[i]? = some JsVal.null →
          (createEMA s p).data[i]? = (createEMA s p).data[i - 1]?)) := by
  obtain ⟨d0, tl, hd⟩ : ∃ d0 tl, s.data = d0 :: tl := by
    cases hcase : s.data with
    | nil => exact absurd hcase hne
    | cons a l => exact ⟨a, l, rfl⟩
  have hC : (createEMA s p).data = createEMAdata (d0 :: tl) (2 / ((p : ℚ) + 1)) := by
    simp [createEMA, hd]
  refine ⟨?_, ?_, ?_⟩
  · rw [hC, createEMAdata_length, hd]
    simp
  · rw [hC, hd, createEMAdata_getElem _ _ _ 0 (by omega)]
    simp [emaAcc]
  · intro i h1 hi
    obtain ⟨j, rfl⟩ : ∃ j, i = j + 1 := ⟨i - 1, by omega⟩
    have hj : j < tl.length := by
      rw [hd] at hi; simpa using Nat.lt_of_succ_lt_succ hi
    have hprev : (createEMA s p).data[j]? =
        some (emaAcc (2 / ((p : ℚ) + 1)) d0 (tl.take j)) := by
      rw [hC]; exact createEMAdata_getElem _ _ _ j (by omega)
    have hcur : (createEMA s p).data[j + 1]? =
        some (emaAcc (2 / ((p : ℚ) + 1)) d0 (tl.take (j + 1))) := by
      rw [hC]; exact createEMAdata_getElem _ _ _ (j + 1) (by omega)
    have hbase : s.data[j + 1]? = tl[j]? := by rw [hd]; simp
    constructor
    · intro v e hv he
      rw [hbase] at hv
      simp only [Nat.add_sub_cancel] at he
      have htake : tl.take (j + 1) = tl.take j ++ [JsVal.num v] := by
        rw [List.take_succ, hv]; rfl
      have hacc : emaAcc (2 / ((p : ℚ) + 1)) d0 (tl.take j) = JsVal.num e := by
        rw [hprev] at he
        exact Option.some.inj he
      simp only [emaAcc] at hacc
      rw [hcur, htake]
      simp only [emaAcc, List.foldl_append, List.foldl_cons, List.foldl_nil]
      rw [hacc, emaStep_num]
    · intro hv
      rw [hbase] at hv
      simp only [Nat.add_sub_cancel]
      have htake : tl.take (j + 1) = tl.take j ++ [JsVal.null] := by
        rw [List.take_succ, hv]; rfl
      rw [hcur, htake, hprev]
      simp [emaAcc, List.foldl_append, emaStep]

/-- C3 witness: base `[10, 20]` with period 3 (`k = 1/2`) gives `[10, 15]`. -/
theorem c3_ema_witness :
    (createEMA ⟨"s", [JsVal.num 10, JsVal.num 20], none, none⟩ 3).data.length = 2 ∧
    (createEMA ⟨"s", [JsVal.num 10, JsVal.num 20], none, none⟩ 3).data
      = [JsVal.num 10, JsVal.num 15] := by
  constructor
  · have h := (c3_ema_spec ⟨"s", [JsVal.num 10, JsVal.num 20], none, none⟩ 3
      (by simp) (by norm_num)).1
    simpa using h
  · norm_num [createEMA, createEMAdata, emaLoop, emaStep, jsAdd, jsMul, jsToNum]

/-- C10: for a base series whose data is a nonempty all-`null` prefix, then a
first present value `v`, then a well-formed remainder (base series satisfy the
well-formedness hypothesis by `mkBaseSeries_wf`), the EMA output is absent at
index 0 (and throughout the prefix), equals `v·k` at the first present index
(the `null` accumulator coerces to 0 in `value*k + ema*(1-k)`), and is a
present number from that index to the end. -/
theorem c10_ema_null_seed (s : Series) (pre : List JsVal) (v : ℚ)
    (rest : List JsVal) (p : ℕ)
    (hdata : s.data = pre ++ JsVal.num v :: rest)
    (hpre : ∀ x ∈ pre, x = JsVal.null) (hne : pre ≠ [])
    (hrest : ∀ x ∈ rest, x = JsVal.null ∨ ∃ q, x = JsVal.num q) :
    ((createEMA s p).data[0]? = some JsVal.null) ∧
    (∀ j, j < pre.length → (createEMA s p).data[j]? = some JsVal.null) ∧
    ((createEMA s p).data[pre.length]? = some (JsVal.num (v * (2 / ((p : ℚ) + 1))))) ∧
    (∀ j, pre.length ≤ j → j < pre.length + 1 + rest.length →
      ∃ q, (createEMA s p).data[j]? = some (JsVal.num q)) := by
  obtain ⟨p0, pre', hp0⟩ : ∃ p0 pre', pre = p0 :: pre' := by
    cases hcase : pre with
    | nil => exact absurd hcase hne
    | cons a l => exact ⟨a, l, rfl⟩
  have hp0null : p0 = JsVal.null := hpre p0 (by simp [hp0])
  subst hp0; subst hp0null
  have hpre' : ∀ x ∈ pre', x = JsVal.null := fun x hx => hpre x (by simp [hx])
  have hC : (createEMA s p).data =
      createEMAdata (JsVal.null :: (pre' ++ JsVal.num v :: rest)) (2 / ((p : ℚ) + 1)) := by
    simp [createEMA, hdata]
  have hidx : ∀ j, j ≤ (pre' ++ JsVal.num v :: rest).length →
      (createEMA s p).data[j]? =
        some (emaAcc (2 / ((p : ℚ) + 1)) JsVal.null
          ((pre' ++ JsVal.num v :: rest).take j)) := by
    intro j hj
    rw [hC]; exact createEMAdata_getElem _ _ _ j hj
  have hlen : (pre' ++ JsVal.num v :: rest).length = pre'.length + 1 + rest.length := by
    simp; omega
  have hA : ∀ j, j < (JsVal.null :: pre').length →
      (createEMA s p).data[j]? = some JsVal.null := by
    intro j hj
    have hj' : j ≤ pre'.length := by simpa using Nat.lt_succ_iff.mp (by simpa using hj)
    rw [hidx j (by omega)]
    rw [List.take_append_of_le_length hj']
    rw [emaAcc_all_null _ _ (fun x hx => hpre' x (List.take_subset _ _ hx))]
  have hB : (createEMA s p).data[(JsVal.null :: pre').length]? =
      some (JsVal.num (v * (2 / ((p : ℚ) + 1)))) := by
    have h1 : (JsVal.null :: pre').length = pre'.length + 1 := by simp
    rw [h1, hidx (pre'.length + 1) (by omega)]
    have htake : (pre' ++ JsVal.num v :: rest).take (pre'.length + 1)
        = pre' ++ [JsVal.num v] := by
      have h2 := @List.take_append _ pre' (JsVal.num v :: rest) 1
      simpa using h2
    rw [htake]
    simp only [emaAcc, List.foldl_append, List.foldl_cons, List.foldl_nil]
    rw [show List.foldl (emaStep (2 / ((p : ℚ) + 1))) JsVal.null pre' = JsVal.null by
      simpa [emaAcc] using emaAcc_all_null (2 / ((p : ℚ) + 1)) pre' hpre']
    rw [emaStep_nullAcc_num]
  refine ⟨hA 0 (by simp), hA, hB, ?_⟩
  intro j hjl hjr
  rcases Nat.eq_or_lt_of_le hjl with heq | hlt
  · exact ⟨v * (2 / ((p : ℚ) + 1)), by rw [← heq]; exact hB⟩
  · obtain ⟨m, hm⟩ : ∃ m, j = pre'.length + 1 + (m + 1) := by
      refine ⟨j - pre'.length - 2, ?_⟩
      simp only [List.length_cons] at hlt
      omega
    have hmr : m + 1 ≤ rest.length := by
      simp only [List.length_cons] at hjr
      omega
    subst hm
    rw [hidx _ (by omega)]
    have htake : (pre' ++ JsVal.num v :: rest).take (pre'.length + 1 + (m + 1))
        = pre' ++ JsVal.num v :: rest.take (m + 1) := by
      have h2 : pre'.length + 1 + (m + 1) = pre'.length + (m + 2) := by omega
      rw [h2, List.take_append]
      simp
    rw [htake]
    have hsplit : pre' ++ JsVal.num v :: rest.take (m + 1)
        = (pre' ++ [JsVal.num v]) ++ rest.take (m + 1) := by simp
    rw [hsplit]
    simp only [emaAcc, List.foldl_append, List.foldl_cons, List.foldl_nil]
    rw [show List.foldl (emaStep (2 / ((p : ℚ) + 1))) JsVal.null pre' = JsVal.null by
      simpa [emaAcc] using emaAcc_all_null (2 / ((p : ℚ) + 1)) pre' hpre']
    rw [emaStep_nullAcc_num]
    have hwf : ∀ x ∈ rest.take (m + 1), x = JsVal.null ∨ ∃ q, x = JsVal.num q :=
      fun x hx => hrest x (List.take_subset _ _ hx)
    obtain ⟨r, hr⟩ := emaAcc_num_of_wf (2 / ((p : ℚ) + 1)) (rest.take (m + 1))
      (v * (2 / ((p : ℚ) + 1))) hwf
    exact ⟨r, by simpa [emaAcc] using congrArg some hr⟩

/-- C10 witness: base `[null, 5, null, 7]` with period 3 (`k = 1/2`): output
starts absent and the first present index yields `5·k = 5/2`, not 5. -/
theorem c10_ema_null_seed_witness :
    (createEMA ⟨"s", [JsVal.null, JsVal.num 5, JsVal.null, JsVal.num 7],
        none, none⟩ 3).data[0]? = some JsVal.null ∧
    (createEMA ⟨"s", [JsVal.null, JsVal.num 5, JsVal.null, JsVal.num 7],
        none, none⟩ 3).data[1]? = some (JsVal.num (5 * (2 / (((3 : ℕ) : ℚ) + 1)))) := by
  have h := c10_ema_null_seed
    ⟨"s", [JsVal.null, JsVal.num 5, JsVal.null, JsVal.num 7], none, none⟩
    [JsVal.null] 5 [JsVal.null, JsVal.num 7] 3 rfl (by simp) (by simp)
    (by
      intro x hx
      simp only [List.mem_cons, List.not_mem_nil, or_false] at hx
      rcases hx with rfl | rfl
      · exact Or.inl rfl
      · exact Or.inr ⟨7, rfl⟩)
  exact ⟨h.1, h.2.2.1⟩

/-- C4 counterexample: with two selected data columns `a`, `b` and one
requested statistic (Max), the output order is `[a, b, a (Max), b (Max)]` —
the second base series `b` appears between `a` and `a`'s overlay, so a base
series is NOT followed immediately by its overlays before the next base
series appears. -/
theorem c4_order_counterexample :
    ((processData ["t", "a", "b"] [["0", "1", "2"]] [0, 1, 2] [Stat.max]
        ⟨20, 20⟩).series.map Series.name
      = ["a", "b", "a (Max)", "b (Max)"]) ∧
    ((processData ["t", "a", "b"] [["0", "1", "2"]] [0, 1, 2] [Stat.max]
        ⟨20, 20⟩).series.map Series.name
      ≠ ["a", "a (Max)", "b", "b (Max)"]) := by
  constructor <;> decide

/-- C4 (amended): the output series list is all base series first, in
selection order, followed by the overlay series grouped by base series in
selection order, each group in request order — the overlays are appended at
the end of the list, not interleaved after their base series. -/
theorem c4_order_amended (headers : List String) (data : List (List String))
    (sel : List ℕ) (stats : List Stat) (periods : Periods) :
    (processData headers data sel stats periods).series =
      ((sel.drop 1).map (mkBaseSeries headers data)) ++
      ((sel.drop 1).map (mkBaseSeries headers data)).flatMap
        (fun b => stats.map (applyStat periods b)) :=
  processData_series_eq headers data sel stats periods

/-- C5: with `B` base series and `S` requested statistics the output has
exactly `B·(1+S)` series, and every output series is either a base series or
the result of applying one requested statistic to one BASE series — never to
another overlay, despite the source appending to the list it is iterating. -/
theorem c5_series_count (headers : List String) (data : List (List String))
    (sel : List ℕ) (stats : List Stat) (periods : Periods) :
    ((processData headers data sel stats periods).series.length
        = (sel.drop 1).length * (1 + stats.length)) ∧
    (∀ t ∈ (processData headers data sel stats periods).series,
      t ∈ (sel.drop 1).map (mkBaseSeries headers data) ∨
      ∃ b ∈ (sel.drop 1).map (mkBaseSeries headers data),
        ∃ st ∈ stats, t = applyStat periods b st) := by
  constructor
  · rw [processData_series_eq, List.length_append, flatMap_stats_length]
    simp only [List.length_map]
    ring
  · intro t ht
    rw [processData_series_eq] at ht
    rcases List.mem_append.mp ht with h | h
    · exact Or.inl h
    · obtain ⟨b, hb, hmem⟩ := List.mem_flatMap.mp h
      obtain ⟨st, hst, hts⟩ := List.mem_map.mp hmem
      exact Or.inr ⟨b, hb, st, hst, hts.symm⟩

/-- C5 witness: one data column and one statistic give `1·(1+1) = 2` series,
and the base series is among the output, classified as a base series. -/
theorem c5_series_count_witness :
    ((processData ["t", "a"] ([] : List (List String)) [0, 1] [Stat.max]
        ⟨20, 20⟩).series.length = ([0, 1].drop 1).length * (1 + [Stat.max].length)) ∧
    ((mkBaseSeries ["t", "a"] [] 1) ∈ ([0, 1].drop 1).map (mkBaseSeries ["t", "a"] []) ∨
      ∃ b ∈ ([0, 1].drop 1).map (mkBaseSeries ["t", "a"] []),
        ∃ st ∈ [Stat.max], mkBaseSeries ["t", "a"] [] 1 = applyStat ⟨20, 20⟩ b st) :=
  ⟨(c5_series_count ["t", "a"] [] [0, 1] [Stat.max] ⟨20, 20⟩).1,
   (c5_series_count ["t", "a"] [] [0, 1] [Stat.max] ⟨20, 20⟩).2
     (mkBaseSeries ["t", "a"] [] 1) (by decide)⟩

/-- C6: for every input text the parser behaves exactly as the claim
describes: blank-after-trim lines dropped, empty result on no lines,
delimiter sniffed from the first remaining line with tab fallback, header
fields trimmed, data fields untrimmed.  (The non-fatal warning on fallback is
a UI side effect outside the model.) -/
theorem c6_parse_refines (content : String) :
    parseFile content = parseFileSpec content := by
  unfold parseFile parseFileSpec chooseDelimiterSpec
  cases h : (content.splitOn "\n").filter (fun line => line.trim ≠ "") with
  | nil => simp [h]
  | cons first restLines => simp [h]

/-- C7 counterexample: the quick-pick offers EVERY header, including column
0's, so the user can pick it; with headers `["a","b"]` and a pick of both
labels the result is `[0, 0, 1]` — index 0 appears a second time and the
elements are not distinct. -/
theorem c7_selection_counterexample :
    (selectColumns ["a", "b"] none (some ["a", "b"])).selection = some [0, 0, 1] ∧
    ¬ (([0, 0, 1] : List ℤ).Nodup) := by
  constructor <;> decide

/-- C7 (amended): every selection the selector returns starts with index 0;
it is a sequence of DISTINCT indices with 0 appearing only once provided the
picked labels are pairwise distinct, occur among the headers, and none
resolves to index 0 (the user can in fact pick column 0's label, and
duplicate labels resolve to the first match), and provided any stored prior
selection is itself duplicate-free and 0-free. -/
theorem c7_selection_amended (headers : List String) (lastUsed : Option (List ℤ))
    (selectedItems : Option (List String)) (sel : List ℤ)
    (hitems : ∀ items, selectedItems = some items →
      items.Nodup ∧ ∀ l ∈ items, l ∈ headers ∧ jsIndexOf headers l ≠ 0)
    (hlast : ∀ lu, lastUsed = some lu → lu.Nodup ∧ (0 : ℤ) ∉ lu)
    (hsel : (selectColumns headers lastUsed selectedItems).selection = some sel) :
    sel.head? = some 0 ∧ sel.Nodup := by
  have hfb : (selectFallback lastUsed).selection = some sel →
      sel.head? = some 0 ∧ sel.Nodup := by
    intro h
    cases lastUsed with
    | none => simp [selectFallback] at h
    | some lu =>
      obtain ⟨hl1, hl2⟩ := hlast lu rfl
      simp only [selectFallback] at h
      have hs : sel = 0 :: lu := (Option.some.inj h).symm
      subst hs
      exact ⟨rfl, List.nodup_cons.mpr ⟨hl2, hl1⟩⟩
  cases selectedItems with
  | none => exact hfb (by simpa [selectColumns] using hsel)
  | some items =>
    by_cases hlen : items.length > 0
    · simp only [selectColumns, if_pos hlen] at hsel
      obtain ⟨hnd, hmem⟩ := hitems items rfl
      have hs : sel = 0 :: items.map (fun label => jsIndexOf headers label) :=
        (Option.some.inj hsel).symm
      subst hs
      refine ⟨rfl, List.nodup_cons.mpr ⟨?_, ?_⟩⟩
      · intro hmem0
        obtain ⟨l, hl, hl0⟩ := List.mem_map.mp hmem0
        exact (hmem l hl).2 hl0
      · exact hnd.map_on (fun x hx y hy hxy =>
          jsIndexOf_inj headers x y (hmem x hx).1 (hmem y hy).1 hxy)
    · have h0 : items = [] := List.length_eq_zero.mp (by omega)
      subst h0
      exact hfb (by simpa [selectColumns] using hsel)

/-- C7 witness: headers `["t","a","b"]`, no prior selection, user picks
`"a"` and `"b"`: the returned selection `[0, 1, 2]` starts with 0 and is
duplicate-free. -/
theorem c7_selection_witness :
    (selectColumns ["t", "a", "b"] none (some ["a", "b"])).selection
      = some [0, 1, 2] ∧
    (([0, 1, 2] : List ℤ).head? = some 0 ∧ ([0, 1, 2] : List ℤ).Nodup) :=
  ⟨by decide,
   c7_selection_amended ["t", "a", "b"] none (some ["a", "b"]) [0, 1, 2]
     (by decide) (by decide) (by decide)⟩

/-- C8: when the user cancels (`none`) or confirms an empty pick (`some []`),
the selector returns `0` prepended to the stored prior selection when one
exists and no selection otherwise, and the stored default is unchanged in
both cases. -/
theorem c8_cancel_fallback (headers : List String) (lastUsed : Option (List ℤ))
    (selectedItems : Option (List String))
    (hcancel : selectedItems = none ∨ selectedItems = some []) :
    (selectColumns headers lastUsed selectedItems).selection
      = lastUsed.map (fun lu => (0 : ℤ) :: lu) ∧
    (selectColumns headers lastUsed selectedItems).stored = lastUsed := by
  rcases hcancel with h | h <;> subst h <;>
    cases lastUsed <;> simp [selectColumns, selectFallback]

/-- C8 witness: prior selection `[2, 4]`, user cancels: result `[0, 2, 4]`,
store unchanged; with no prior and an empty confirmed pick: no selection. -/
theorem c8_cancel_fallback_witness :
    ((selectColumns ["h"] (some [2, 4]) none).selection = some [0, 2, 4] ∧
     (selectColumns ["h"] (some [2, 4]) none).stored = some [2, 4]) ∧
    ((selectColumns ["h"] none (some [])).selection = none ∧
     (selectColumns ["h"] none (some [])).stored = none) := by
  constructor
  · have h := c8_cancel_fallback ["h"] (some [2, 4]) none (Or.inl rfl)
    simpa using h
  · have h := c8_cancel_fallback ["h"] none (some []) (Or.inr rfl)
    simpa using h

/-- C9: the series builder is total by construction and yields one data point
per row; a missing field (row shorter than the selected column position) or a
field that does not parse as a number produces an absent (`null`) point, and
a parsing field produces its value. -/
theorem c9_series_builder (headers : List String) (data : List (List String))
    (colIndex : ℕ) :
    ((mkBaseSeries headers data colIndex).data.length = data.length) ∧
    (∀ (i : ℕ) (row : List String), data[i]? = some row →
      ((row[colIndex]? = none →
          (mkBaseSeries headers data colIndex).data[i]? = some JsVal.null) ∧
       (∀ f, row[colIndex]? = some f → parseFloatJs f = none →
          (mkBaseSeries headers data colIndex).data[i]? = some JsVal.null) ∧
       (∀ f q, row[colIndex]? = some f → parseFloatJs f = some q →
          (mkBaseSeries headers data colIndex).data[i]? = some (JsVal.num q)))) := by
  refine ⟨by simp [mkBaseSeries], ?_⟩
  intro i row hrow
  have hpt : (mkBaseSeries headers data colIndex).data[i]?
      = some (parsePoint row[colIndex]?) := by
    simp [mkBaseSeries, hrow]
  refine ⟨fun hnone => ?_, fun f hf hp => ?_, fun f q hf hp => ?_⟩
  · rw [hpt, hnone]; rfl
  · rw [hpt, hf]; simp [parsePoint, hp]
  · rw [hpt, hf]; simp [parsePoint, hp]

/-- C9 witness: headers `["t","a"]`, rows `[["x","abc"], ["y"]]` (second row
too short): column 1's series has two points, both absent — the cell `"abc"`
does not parse and the missing field reads as `undefined`. -/
theorem c9_series_builder_witness :
    (mkBaseSeries ["t", "a"] [["x", "abc"], ["y"]] 1).data[0]? = some JsVal.null ∧
    (mkBaseSeries ["t", "a"] [["x", "abc"], ["y"]] 1).data[1]? = some JsVal.null :=
  ⟨((c9_series_builder ["t", "a"] [["x", "abc"], ["y"]] 1).2 0 ["x", "abc"]
      (by decide)).2.1 "abc" (by decide) (by decide),
   ((c9_series_builder ["t", "a"] [["x", "abc"], ["y"]] 1).2 1 ["y"]
      (by decide)).1 (by decide)⟩

end FileChart
